import Mathlib

/-!
Shallow embedding of the author-attribution and aggregation engine of the
git-tracker repository (a Streamlit GitLab contribution tracker).

Network fetches are modelled by passing the fetched JSON payloads in as
explicit inputs; the pure filtering, counting, deduplication and grading
logic is translated directly from the Python source files
`app.py`, `pages/bulk_summary.py`, `pages/detailed_view.py` and
`pages/progress_view.py`.
-/

namespace GitTracker

/-- A calendar date, as produced by `parser.parse(...).date()` in the source. -/
structure Date where
  year : Nat
  month : Nat
  day : Nat
deriving DecidableEq

/-- Linearisation of a (validated) date used to compare dates chronologically. -/
def Date.key (d : Date) : Nat := d.year * 10000 + d.month * 100 + d.day

/-- Chronological `<=` on dates. -/
def dateLe (a b : Date) : Bool := decide (a.key ≤ b.key)

/-- Chronological `<` on dates. -/
def dateLt (a b : Date) : Bool := decide (a.key < b.key)

/-- ASCII lower-casing of one character, modelling Python's `.lower()` on
the ASCII identifiers, emails and state strings the source compares. -/
def lowerChar (c : Char) : Char :=
  if 'A' ≤ c ∧ c ≤ 'Z' then Char.ofNat (c.toNat + 32) else c

/-- Python's `str.lower()` (ASCII). -/
def lowerString (s : String) : String := ⟨s.data.map lowerChar⟩

/-- Python's `str.strip()`: remove leading and trailing whitespace. -/
def stripString (s : String) : String :=
  ⟨((s.data.dropWhile Char.isWhitespace).reverse.dropWhile Char.isWhitespace).reverse⟩

/-- Split a character list at every `'-'`. -/
def splitDash : List Char → List (List Char)
  | [] => [[]]
  | c :: cs =>
    let rest := splitDash cs
    if c = '-' then [] :: rest
    else
      match rest with
      | r :: rs => (c :: r) :: rs
      | [] => [[c]]

/-- Parse a non-empty all-digit character list as a decimal number. -/
def parseNatChars (l : List Char) : Option Nat :=
  if l ≠ [] ∧ l.all Char.isDigit then
    some (l.foldl (fun n c => n * 10 + (c.toNat - 48)) 0)
  else none

/-- Extract the leading `YYYY-MM-DD` of an ISO-8601 timestamp string, as
`dateutil.parser.parse(...).date()` does for the forge's `created_at`
values; `none` models the `except` branch for strings that do not parse
as a timestamp. -/
def parseDate (s : String) : Option Date :=
  match splitDash s.data with
  | [ys, ms, rest] =>
    let ds := rest.takeWhile Char.isDigit
    let tail := rest.drop ds.length
    if tail = [] ∨ tail.head? = some 'T' ∨ tail.head? = some ' ' then
      match parseNatChars ys, parseNatChars ms, parseNatChars ds with
      | some y, some m, some d =>
        if 1 ≤ m ∧ m ≤ 12 ∧ 1 ≤ d ∧ d ≤ 31 then some ⟨y, m, d⟩ else none
      | _, _, _ => none
    else none
  | _ => none

/-- One fetched JSON item as seen by `count_items_by_date`: only the
`created_at` field matters there. `none` models an absent field. -/
structure Item where
  created_at : Option String
deriving DecidableEq

/-- The guarded date extraction of one `count_items_by_date` iteration:
`if date_field in item and item[date_field]` followed by
`parser.parse(item[date_field]).date()`, with a parse failure caught by
the surrounding `except`. -/
def itemDate (it : Item) : Option Date :=
  match it.created_at with
  | none => none
  | some s => if s = "" then none else parseDate s

/-- Whether one iteration of the `count_items_by_date` loop increments the
counter: the item's date exists, parses, and satisfies
`start_date <= item_date <= end_date`. -/
def keepsItem (startDate endDate : Date) (it : Item) : Bool :=
  match itemDate it with
  | some d => dateLe startDate d && dateLe d endDate
  | none => false

/-- `count_items_by_date(items, date_field, start_date, end_date)` from
`app.py` (the identical loop is `count_items_by_date_cached` in
`bulk_summary.py`). -/
def count_items_by_date (items : List Item) (startDate endDate : Date) : Nat :=
  items.foldl (fun count it => if keepsItem startDate endDate it then count + 1 else count) 0

/-- A note (comment) as fetched from the notes endpoint: the fields the
filters look at. `author_id` models `note.get("author", {}).get("id")`
(`none` when the author object or its id is missing); `system` and `body`
are `none` when the key is absent, matching `.get(key, default)`. -/
structure Note where
  author_id : Option Int
  system : Option Bool
  body : Option String
deriving DecidableEq

/-- The retention filter of `fetch_issue_comments` / `fetch_mr_comments`
(`app.py`, and identically in `bulk_summary.py`): keep a note iff its
`author.id` equals the user's id and its `system` flag (defaulting to
`False` when absent) is `False`. -/
def user_comments (notes : List Note) (user_id : Int) : List Note :=
  notes.filter (fun note => decide (note.author_id = some user_id) && !(note.system.getD false))

/-- The counting predicate of `fetch_comments` (`progress_view.py`):
authored by the user, not a system note, and non-empty body after
stripping whitespace. -/
def commentCounted (user_id : Int) (note : Note) : Bool :=
  decide (note.author_id = some user_id) && !(note.system.getD false)
    && !(decide (stripString (note.body.getD "") = ""))

/-- `fetch_comments` from `progress_view.py`: count the notes on one
MR/issue that pass `commentCounted`. -/
def fetch_comments (notes : List Note) (user_id : Int) : Nat :=
  notes.foldl (fun count note => if commentCounted user_id note then count + 1 else count) 0

/-- A commit as returned by the repository-commits endpoint: the fields the
collection and matching logic looks at. -/
structure Commit where
  id : String
  author_name : String
  author_email : String
  committer_name : String
  committer_email : String
deriving DecidableEq

/-- Python's substring containment test `needle in hay` on strings. -/
def strContains (hay needle : String) : Bool :=
  (List.range (hay.length + 1)).any (fun i => needle.data.isPrefixOf (hay.data.drop i))

/-- The client-side author filter of strategy 3 in `fetch_commits`
(`app.py`): a lowercased name/username substring match against the
author/committer names, or an exact lowercased email match against the
author/committer emails. -/
def commitMatches (user_name user_username : String) (user_emails : List String)
    (c : Commit) : Bool :=
  let author_name := lowerString c.author_name
  let author_email := lowerString c.author_email
  let committer_name := lowerString c.committer_name
  let committer_email := lowerString c.committer_email
  let name_match := strContains author_name user_name || strContains author_name user_username
    || strContains committer_name user_name || strContains committer_name user_username
  let email_match := user_emails.any (fun e => decide (e = author_email) || decide (e = committer_email))
  name_match || email_match

/-- The user-profile fields that `fetch_commits` reads from
`GET /users/{user_id}`. Absent JSON keys are `none`. -/
structure UserInfo where
  name : String
  username : String
  email : Option String
  public_email : Option String
deriving DecidableEq

/-- `[user_info.get('email'), user_info.get('public_email')]` filtered to
truthy values, as built in strategies 2 and 3 of `fetch_commits`. -/
def userEmails (info : UserInfo) : List String :=
  ([info.email, info.public_email].filterMap id).filter (fun e => !(decide (e = "")))

/-- The duplicate-removal loop at the end of `fetch_commits`: walk the
accumulated commits, skipping any commit whose id was already seen. -/
def dedupByIdGo (seen : List String) : List Commit → List Commit
  | [] => []
  | c :: cs =>
    if c.id ∈ seen then dedupByIdGo seen cs
    else c :: dedupByIdGo (c.id :: seen) cs

/-- `seen_ids` / `unique_commits` deduplication at the end of
`fetch_commits` (`app.py`, `bulk_summary.py`, and identically at the end
of `fetch_commits_by_author` in `detailed_view.py`). -/
def dedupById (commits : List Commit) : List Commit := dedupByIdGo [] commits

/-- `fetch_commits` from `app.py` (the same control flow appears in
`bulk_summary.py`), with the per-tier HTTP fetch results passed in as
explicit payloads: `tier1` is the username-filtered fetch (strategy 1),
`tier2 e` is the server-side email-filtered fetch for address `e`
(strategy 2, issued for every truthy profile email), and `tier3` is the
unfiltered fetch that strategy 3 filters client-side. A failed fetch is
modelled by an empty payload, matching the bare `except: pass`. -/
def fetch_commits (info : UserInfo) (tier1 : List Commit) (tier2 : String → List Commit)
    (tier3 : List Commit) : List Commit :=
  let afterTier2 := tier1 ++ (userEmails info).flatMap tier2
  let user_commits :=
    if afterTier2.isEmpty then
      tier3.filter (commitMatches (lowerString info.name) (lowerString info.username)
        ((userEmails info).map lowerString))
    else afterTier2
  dedupById user_commits

/-- A merge request (or issue) record as returned by the identity-scoped
endpoints of `detailed_view.py`: a structured `author.id` plus the raw
author name/email fields the claim quantifies over. -/
structure MergeRequest where
  author_id : Option Int
  author_name : String
  author_email : String
  state : String
deriving DecidableEq

/-- The author cross-check predicate in `fetch_merge_requests_by_author`
(`detailed_view.py`): `mr.get("author", {}).get("id") == user_id`. The
same four lines appear in `fetch_issues_by_author`. -/
def mrAuthorMatch (user_id : Int) (mr : MergeRequest) : Bool :=
  decide (mr.author_id = some user_id)

/-- The filtering step of `fetch_merge_requests_by_author`
(`detailed_view.py`): the fetched MRs are retained iff their structured
`author.id` equals the target user id. -/
def fetch_merge_requests_by_author (mrs : List MergeRequest) (user_id : Int) :
    List MergeRequest :=
  mrs.filter (mrAuthorMatch user_id)

/-- A project as returned by a discovery endpoint, before tagging. -/
structure RawProject where
  id : Int
  name_with_namespace : String
deriving DecidableEq

/-- A resolved project in `_gather_data` (`app.py`) after the
`is_personal` flag is attached. -/
structure TaggedProject where
  id : Int
  name_with_namespace : String
  is_personal : Bool
deriving DecidableEq

/-- The `unique_projects` loop of `_gather_data` (`app.py`): walk the
combined list, keep the first project seen for each project id, and tag it
with `is_personal = (project in personal_projects)`. -/
def resolveProjectsGo (personal : List RawProject) (seen : List Int) :
    List RawProject → List TaggedProject
  | [] => []
  | p :: ps =>
    if p.id ∈ seen then resolveProjectsGo personal seen ps
    else { id := p.id, name_with_namespace := p.name_with_namespace,
           is_personal := decide (p ∈ personal) } :: resolveProjectsGo personal (p.id :: seen) ps

/-- Project resolution in `_gather_data` (`app.py`):
`all_projects = personal_projects + contributed_projects` deduplicated by
project id, first occurrence kept, tagged with `is_personal`. -/
def resolveProjects (personal contributed : List RawProject) : List TaggedProject :=
  resolveProjectsGo personal [] (personal ++ contributed)

/-- One `all_projects[proj["id"]] = proj` dict update from `gather_data`
(`detailed_view.py`): replace the entry with the same id (keeping its
position, as a Python dict does), or append a new entry. -/
def upsertById (acc : List RawProject) (p : RawProject) : List RawProject :=
  if acc.any (fun q => decide (q.id = p.id)) then
    acc.map (fun q => if q.id = p.id then p else q)
  else acc ++ [p]

/-- Project deduplication in `gather_data` (`detailed_view.py`): insert
the owned, contributed and accessible project lists into a dict keyed by
project id. -/
def dedupLastById (projects : List RawProject) : List RawProject :=
  projects.foldl upsertById []

/-- An MR or issue record carrying the fields the `progress_view.py`
aggregation reads: its `state` string and the notes fetched for it. -/
structure AuthoredItem where
  state : String
  notes : List Note
deriving DecidableEq

/-- The per-project payloads handed to the aggregation loop of
`gather_user_data` in `progress_view.py`: the commits returned by
`fetch_commits`, and the window-filtered MRs and issues returned by the
author-id-scoped endpoints, each with its notes. -/
structure ProjectData where
  commits : List Commit
  mrs : List AuthoredItem
  issues : List AuthoredItem
deriving DecidableEq

/-- The per-user aggregate record returned by `gather_user_data` inside
`gather_all_user_data` (`progress_view.py`). -/
structure UserRecord where
  commits : Nat
  merge_requests : Nat
  mrs_opened : Nat
  mrs_closed : Nat
  mrs_merged : Nat
  issues : Nat
  issues_opened : Nat
  issues_closed : Nat
  mr_comments : Nat
  issue_comments : Nat
  total_contributions : Nat
deriving DecidableEq

/-- The state-bucket increment of the aggregation loop:
`state = item.get("state", "").lower()` counted when it equals the bucket key. -/
def countState (items : List AuthoredItem) (bucket : String) : Nat :=
  items.countP (fun it => decide (lowerString it.state = bucket))

/-- The totals accumulated by `gather_user_data` in `gather_all_user_data`
(`progress_view.py`), with every project's fetched payloads passed in
explicitly. `total_contributions` is computed exactly as in the source:
`total_commits + total_mrs["total"] + total_issues["total"]`. -/
def gather_user_data (user_id : Int) (projects : List ProjectData) : UserRecord :=
  let total_commits := (projects.map (fun p => p.commits.length)).sum
  let allMrs := projects.flatMap (fun p => p.mrs)
  let allIssues := projects.flatMap (fun p => p.issues)
  let total_mrs := allMrs.length
  let total_issues := allIssues.length
  let mr_comments := (allMrs.map (fun mr => fetch_comments mr.notes user_id)).sum
  let issue_comments := (allIssues.map (fun iss => fetch_comments iss.notes user_id)).sum
  { commits := total_commits
    merge_requests := total_mrs
    mrs_opened := countState allMrs "opened"
    mrs_closed := countState allMrs "closed"
    mrs_merged := countState allMrs "merged"
    issues := total_issues
    issues_opened := countState allIssues "opened"
    issues_closed := countState allIssues "closed"
    mr_comments := mr_comments
    issue_comments := issue_comments
    total_contributions := total_commits + total_mrs + total_issues }

/-- The statistics record built by `calculate_contribution_stats`
(`detailed_view.py`). -/
structure ContributionStats where
  total_commits : Nat
  total_mrs : Nat
  total_issues : Nat
  total_mr_comments : Nat
  total_issue_comments : Nat
  total_contributions : Nat
deriving DecidableEq

/-- `calculate_contribution_stats` from `detailed_view.py`. -/
def calculate_contribution_stats (commits_by_project : List (List Commit))
    (merge_requests : List MergeRequest) (issues : List MergeRequest)
    (mr_comments issue_comments : List Note) : ContributionStats :=
  let total_commits := (commits_by_project.map List.length).sum
  let total_mrs := merge_requests.length
  let total_issues := issues.length
  let total_mr_comments := mr_comments.length
  let total_issue_comments := issue_comments.length
  { total_commits := total_commits
    total_mrs := total_mrs
    total_issues := total_issues
    total_mr_comments := total_mr_comments
    total_issue_comments := total_issue_comments
    total_contributions := total_commits + total_mrs + total_issues
      + total_mr_comments + total_issue_comments }

/-- `calculate_grade` from `progress_view.py`; the float arithmetic of the
source is modelled over the rationals. -/
def calculate_grade (value avg_value : ℚ) : String :=
  if avg_value = 0 then
    if value = 0 then "No Data" else "Above Average"
  else
    let percentage := value / avg_value * 100
    if percentage ≥ 135 then "Excellent"
    else if percentage ≥ 90 then "Good"
    else if percentage ≥ 50 then "Average"
    else "Below Average"

/-- The batch mean `df_results[metric].mean()` used by
`process_and_grade_data` (`progress_view.py`). -/
def batchMean (values : List ℚ) : ℚ := values.sum / (values.length : ℚ)

/-- `process_and_grade_data` applied to one metric column: grade every
value in the batch against the batch mean. -/
def gradeBatch (values : List ℚ) : List String :=
  values.map (fun v => calculate_grade v (batchMean values))

/-! ### Helper lemmas -/

theorem foldl_count_eq {α : Type} (p : α → Bool) (l : List α) (acc : Nat) :
    l.foldl (fun c x => if p x then c + 1 else c) acc = acc + l.countP p := by
  induction l generalizing acc with
  | nil => simp
  | cons a l ih =>
    simp only [List.foldl_cons, List.countP_cons, ih]
    split <;> omega

theorem count_items_by_date_eq_countP (items : List Item) (s e : Date) :
    count_items_by_date items s e = items.countP (keepsItem s e) := by
  unfold count_items_by_date
  rw [foldl_count_eq, Nat.zero_add]

theorem fetch_comments_eq_countP (notes : List Note) (user_id : Int) :
    fetch_comments notes user_id = notes.countP (commentCounted user_id) := by
  unfold fetch_comments
  rw [foldl_count_eq, Nat.zero_add]

theorem dedupByIdGo_subset :
    ∀ (cs : List Commit) (seen : List String) (c : Commit),
      c ∈ dedupByIdGo seen cs → c ∈ cs := by
  intro cs
  induction cs with
  | nil => intro seen c hc; simp [dedupByIdGo] at hc
  | cons a cs ih =>
    intro seen c hc
    rw [dedupByIdGo] at hc
    split at hc
    · exact List.mem_cons_of_mem _ (ih _ _ hc)
    · rcases List.mem_cons.mp hc with h | h
      · exact h ▸ List.mem_cons_self a cs
      · exact List.mem_cons_of_mem _ (ih _ _ h)

theorem dedupByIdGo_ids :
    ∀ (cs : List Commit) (seen : List String),
      ((dedupByIdGo seen cs).map Commit.id).Nodup ∧
        ∀ i ∈ (dedupByIdGo seen cs).map Commit.id, i ∉ seen := by
  intro cs
  induction cs with
  | nil => intro seen; simp [dedupByIdGo]
  | cons a cs ih =>
    intro seen
    rw [dedupByIdGo]
    split
    · exact ih seen
    · rename_i hnot
      obtain ⟨hnd, hdisj⟩ := ih (a.id :: seen)
      refine ⟨List.nodup_cons.mpr ⟨?_, hnd⟩, ?_⟩
      · intro hmem
        exact (hdisj _ hmem) (List.mem_cons_self _ _)
      · intro i hi
        rcases List.mem_cons.mp hi with h | h
        · exact h ▸ hnot
        · intro hseen
          exact (hdisj _ h) (List.mem_cons_of_mem _ hseen)

theorem dedupByIdGo_mem_ids :
    ∀ (cs : List Commit) (seen : List String) (i : String), i ∉ seen →
      (i ∈ (dedupByIdGo seen cs).map Commit.id ↔ i ∈ cs.map Commit.id) := by
  intro cs
  induction cs with
  | nil => intro seen i _; simp [dedupByIdGo]
  | cons a cs ih =>
    intro seen i hi
    rw [dedupByIdGo]
    split
    · rename_i hin
      rw [ih seen i hi]
      simp only [List.map_cons, List.mem_cons]
      constructor
      · exact Or.inr
      · rintro (h | h)
        · exact absurd (h ▸ hin) hi
        · exact h
    · by_cases hia : i = a.id
      · subst hia
        simp
      · have hi' : i ∉ a.id :: seen := by
          intro h
          rcases List.mem_cons.mp h with h | h
          · exact hia h
          · exact hi h
        simp only [List.map_cons, List.mem_cons]
        rw [ih (a.id :: seen) i hi']

theorem resolveProjectsGo_shape (personal : List RawProject) :
    ∀ (l : List RawProject) (seen : List Int) (t : TaggedProject),
      t ∈ resolveProjectsGo personal seen l →
        t.id ∉ seen ∧ ∃ p ∈ l, p.id = t.id ∧ t.is_personal = decide (p ∈ personal) := by
  intro l
  induction l with
  | nil => intro seen t ht; simp [resolveProjectsGo] at ht
  | cons p ps ih =>
    intro seen t ht
    rw [resolveProjectsGo] at ht
    split at ht
    · obtain ⟨hseen, q, hq, hqid, hqp⟩ := ih seen t ht
      exact ⟨hseen, q, List.mem_cons_of_mem _ hq, hqid, hqp⟩
    · rename_i hnot
      rcases List.mem_cons.mp ht with h | h
      · subst h
        exact ⟨hnot, p, List.mem_cons_self _ _, rfl, rfl⟩
      · obtain ⟨hseen, q, hq, hqid, hqp⟩ := ih (p.id :: seen) t h
        exact ⟨fun hs => hseen (List.mem_cons_of_mem _ hs),
          q, List.mem_cons_of_mem _ hq, hqid, hqp⟩

theorem resolveProjectsGo_personal_tag (personal : List RawProject) :
    ∀ (l : List RawProject) (seen : List Int), (∀ p ∈ l, p ∈ personal) →
      ∀ t ∈ resolveProjectsGo personal seen l, t.is_personal = true := by
  intro l
  induction l with
  | nil => intro seen _ t ht; simp [resolveProjectsGo] at ht
  | cons p ps ih =>
    intro seen hsub t ht
    rw [resolveProjectsGo] at ht
    split at ht
    · exact ih seen (fun q hq => hsub q (List.mem_cons_of_mem _ hq)) t ht
    · rcases List.mem_cons.mp ht with h | h
      · subst h
        simp only [decide_eq_true_eq]
        exact hsub p (List.mem_cons_self _ _)
      · exact ih (p.id :: seen) (fun q hq => hsub q (List.mem_cons_of_mem _ hq)) t h

theorem resolveProjectsGo_append (personal : List RawProject) :
    ∀ (l₁ l₂ : List RawProject) (seen : List Int),
      ∃ seen' : List Int,
        (∀ i, i ∈ seen' ↔ i ∈ seen ∨ i ∈ l₁.map RawProject.id) ∧
        resolveProjectsGo personal seen (l₁ ++ l₂)
          = resolveProjectsGo personal seen l₁ ++ resolveProjectsGo personal seen' l₂ := by
  intro l₁
  induction l₁ with
  | nil =>
    intro l₂ seen
    exact ⟨seen, by simp, by simp [resolveProjectsGo]⟩
  | cons p ps ih =>
    intro l₂ seen
    rw [List.cons_append, resolveProjectsGo, resolveProjectsGo]
    split
    · rename_i hin
      obtain ⟨seen', hchar, heq⟩ := ih l₂ seen
      refine ⟨seen', fun i => ?_, heq⟩
      rw [hchar i]
      simp only [List.map_cons, List.mem_cons]
      constructor
      · rintro (h | h)
        · exact Or.inl h
        · exact Or.inr (Or.inr h)
      · rintro (h | h | h)
        · exact Or.inl h
        · exact Or.inl (h ▸ hin)
        · exact Or.inr h
    · obtain ⟨seen', hchar, heq⟩ := ih l₂ (p.id :: seen)
      refine ⟨seen', fun i => ?_, by rw [heq, List.cons_append]⟩
      rw [hchar i]
      simp only [List.mem_cons, List.map_cons]
      constructor
      · rintro ((h | h) | h)
        · exact Or.inr (Or.inl h)
        · exact Or.inl h
        · exact Or.inr (Or.inr h)
      · rintro (h | h | h)
        · exact Or.inl (Or.inr h)
        · exact Or.inl (Or.inl h)
        · exact Or.inr h

theorem resolveProjectsGo_ids (personal : List RawProject) :
    ∀ (l : List RawProject) (seen : List Int),
      ((resolveProjectsGo personal seen l).map TaggedProject.id).Nodup ∧
        ∀ i ∈ (resolveProjectsGo personal seen l).map TaggedProject.id, i ∉ seen := by
  intro l
  induction l with
  | nil => intro seen; simp [resolveProjectsGo]
  | cons p ps ih =>
    intro seen
    rw [resolveProjectsGo]
    split
    · exact ih seen
    · rename_i hnot
      obtain ⟨hnd, hdisj⟩ := ih (p.id :: seen)
      refine ⟨List.nodup_cons.mpr ⟨?_, hnd⟩, ?_⟩
      · intro hmem
        exact (hdisj _ hmem) (List.mem_cons_self _ _)
      · intro i hi
        rcases List.mem_cons.mp hi with h | h
        · exact h ▸ hnot
        · intro hseen
          exact (hdisj _ h) (List.mem_cons_of_mem _ hseen)

theorem resolveProjectsGo_mem_ids (personal : List RawProject) :
    ∀ (l : List RawProject) (seen : List Int) (i : Int), i ∉ seen →
      (i ∈ (resolveProjectsGo personal seen l).map TaggedProject.id ↔ i ∈ l.map RawProject.id) := by
  intro l
  induction l with
  | nil => intro seen i _; simp [resolveProjectsGo]
  | cons p ps ih =>
    intro seen i hi
    rw [resolveProjectsGo]
    split
    · rename_i hin
      rw [ih seen i hi]
      simp only [List.map_cons, List.mem_cons]
      constructor
      · exact Or.inr
      · rintro (h | h)
        · exact absurd (h ▸ hin) hi
        · exact h
    · by_cases hip : i = p.id
      · subst hip
        simp
      · have hi' : i ∉ p.id :: seen := by
          intro h
          rcases List.mem_cons.mp h with h | h
          · exact hip h
          · exact hi h
        simp only [List.map_cons, List.mem_cons]
        rw [ih (p.id :: seen) i hi']

theorem upsertById_ids (m : List RawProject) (p : RawProject) :
    (upsertById m p).map RawProject.id =
      if p.id ∈ m.map RawProject.id then m.map RawProject.id
      else m.map RawProject.id ++ [p.id] := by
  unfold upsertById
  have hcond : (m.any fun q => decide (q.id = p.id)) = true ↔ p.id ∈ m.map RawProject.id := by
    simp only [List.any_eq_true, decide_eq_true_eq, List.mem_map]
  by_cases h : p.id ∈ m.map RawProject.id
  · rw [if_pos (hcond.mpr h), if_pos h, List.map_map]
    apply List.map_congr_left
    intro q _
    simp only [Function.comp_apply]
    by_cases hq : q.id = p.id
    · rw [if_pos hq, ← hq]
    · rw [if_neg hq]
  · rw [if_neg (fun hc => h (hcond.mp hc)), if_neg h, List.map_append]
    rfl

theorem foldl_upsertById_mem_ids :
    ∀ (l : List RawProject) (m : List RawProject) (i : Int),
      (i ∈ (l.foldl upsertById m).map RawProject.id ↔
        i ∈ m.map RawProject.id ∨ i ∈ l.map RawProject.id) := by
  intro l
  induction l with
  | nil => intro m i; simp
  | cons p ps ih =>
    intro m i
    rw [List.foldl_cons, ih]
    simp only [List.map_cons, List.mem_cons, upsertById_ids]
    by_cases h : p.id ∈ m.map RawProject.id
    · rw [if_pos h]
      constructor
      · rintro (hm | hm)
        · exact Or.inl hm
        · exact Or.inr (Or.inr hm)
      · rintro (hm | hm | hm)
        · exact Or.inl hm
        · exact Or.inl (hm ▸ h)
        · exact Or.inr hm
    · rw [if_neg h]
      simp only [List.mem_append, List.mem_singleton]
      constructor
      · rintro ((hm | hm) | hm)
        · exact Or.inl hm
        · exact Or.inr (Or.inl hm)
        · exact Or.inr (Or.inr hm)
      · rintro (hm | hm | hm)
        · exact Or.inl (Or.inl hm)
        · exact Or.inl (Or.inr hm)
        · exact Or.inr hm

theorem foldl_upsertById_nodup :
    ∀ (l : List RawProject) (m : List RawProject),
      ((m.map RawProject.id).Nodup) → ((l.foldl upsertById m).map RawProject.id).Nodup := by
  intro l
  induction l with
  | nil => intro m h; simpa using h
  | cons p ps ih =>
    intro m h
    rw [List.foldl_cons]
    apply ih
    rw [upsertById_ids]
    by_cases hp : p.id ∈ m.map RawProject.id
    · rwa [if_pos hp]
    · rw [if_neg hp]
      simp only [List.nodup_append, List.nodup_cons, List.nodup_nil]
      refine ⟨h, by simp, ?_⟩
      intro i hi hip
      rw [List.mem_singleton] at hip
      exact hp (hip ▸ hi)

/-! ### Claim theorems -/

/-- Claim C5: date-window counting is inclusive on both ends. For every list
of events and every window `[start, end]`, an event whose `created_at` parses
to exactly the window start or the window end is counted, and an event whose
date is strictly before the start or strictly after the end is not counted. -/
theorem claim_c5 (pre post : List Item) (it : Item) (s e d : Date)
    (hse : dateLe s e = true) (hd : itemDate it = some d) :
    ((d = s ∨ d = e) →
      count_items_by_date (pre ++ it :: post) s e
        = count_items_by_date (pre ++ post) s e + 1)
    ∧ ((dateLt d s = true ∨ dateLt e d = true) →
      count_items_by_date (pre ++ it :: post) s e
        = count_items_by_date (pre ++ post) s e) := by
  have hk : keepsItem s e it = (dateLe s d && dateLe d e) := by
    unfold keepsItem
    rw [hd]
  constructor
  · intro hde
    have hkeep : keepsItem s e it = true := by
      rw [hk]
      rcases hde with rfl | rfl
      · rw [hse]
        simp [dateLe]
      · rw [hse]
        simp [dateLe]
    rw [count_items_by_date_eq_countP, count_items_by_date_eq_countP,
      List.countP_append, List.countP_append, List.countP_cons, hkeep]
    simp only [if_pos]
    omega
  · intro hlt
    have hkeep : keepsItem s e it = false := by
      rw [hk]
      simp only [dateLe, dateLt, decide_eq_true_eq] at hse hlt ⊢
      simp only [Bool.and_eq_false_iff, decide_eq_false_iff_not, not_le]
      omega
    rw [count_items_by_date_eq_countP, count_items_by_date_eq_countP,
      List.countP_append, List.countP_append, List.countP_cons, hkeep]
    simp

/-- Witness for C5: the event dated 2024-01-10 is counted in the window
from 2024-01-10 to 2024-01-20 (it falls exactly on the start bound). -/
theorem claim_c5_witness :
    dateLe ⟨2024, 1, 10⟩ ⟨2024, 1, 20⟩ = true
    ∧ itemDate ⟨some "2024-01-10T09:30:00.000Z"⟩ = some ⟨2024, 1, 10⟩
    ∧ count_items_by_date [⟨some "2024-01-10T09:30:00.000Z"⟩] ⟨2024, 1, 10⟩ ⟨2024, 1, 20⟩
        = count_items_by_date [] ⟨2024, 1, 10⟩ ⟨2024, 1, 20⟩ + 1 :=
  ⟨by decide, by decide,
    (claim_c5 [] [] ⟨some "2024-01-10T09:30:00.000Z"⟩ ⟨2024, 1, 10⟩ ⟨2024, 1, 20⟩
      ⟨2024, 1, 10⟩ (by decide) (by decide)).1 (Or.inl rfl)⟩

/-- Claim C9: an event whose `created_at` is missing, empty, or unparseable
is excluded from the windowed count without an error: the count over a list
containing such an event equals the count without it, and the count always
equals the number of well-formed in-window events. -/
theorem claim_c9 (pre post : List Item) (it : Item) (s e : Date)
    (h : itemDate it = none) :
    count_items_by_date (pre ++ it :: post) s e = count_items_by_date (pre ++ post) s e
    ∧ count_items_by_date (pre ++ post) s e = (pre ++ post).countP (keepsItem s e) := by
  have hkeep : keepsItem s e it = false := by
    unfold keepsItem
    rw [h]
  refine ⟨?_, count_items_by_date_eq_countP _ _ _⟩
  rw [count_items_by_date_eq_countP, count_items_by_date_eq_countP,
    List.countP_append, List.countP_append, List.countP_cons, hkeep]
  simp

/-- Witness for C9: a malformed timestamp contributes nothing to the count
while the well-formed event next to it is still counted. -/
theorem claim_c9_witness :
    itemDate ⟨some "not a timestamp"⟩ = none
    ∧ count_items_by_date [⟨some "2024-01-10"⟩, ⟨some "not a timestamp"⟩]
        ⟨2024, 1, 1⟩ ⟨2024, 12, 31⟩
      = count_items_by_date [⟨some "2024-01-10"⟩] ⟨2024, 1, 1⟩ ⟨2024, 12, 31⟩ :=
  ⟨by decide,
    (claim_c9 [⟨some "2024-01-10"⟩] [] ⟨some "not a timestamp"⟩
      ⟨2024, 1, 1⟩ ⟨2024, 12, 31⟩ (by decide)).1⟩

/-- Claim C6: a note is retained as a counted comment only if its
`author.id` equals the target user's id and its `system` flag is false;
in particular a system note is never retained by the `app.py` filter and
never counted by the `progress_view.py` comment counter. -/
theorem claim_c6 (notes : List Note) (user_id : Int) (n : Note) :
    (n ∈ user_comments notes user_id →
      n.author_id = some user_id ∧ n.system.getD false = false)
    ∧ (n.system.getD false = true →
      n ∉ user_comments notes user_id
      ∧ fetch_comments (n :: notes) user_id = fetch_comments notes user_id) := by
  constructor
  · intro hn
    have hfilter := (List.mem_filter.mp hn).2
    simp only [Bool.and_eq_true, decide_eq_true_eq, Bool.not_eq_true'] at hfilter
    exact hfilter
  · intro hsys
    constructor
    · intro hn
      have hfilter := (List.mem_filter.mp hn).2
      simp [hsys] at hfilter
    · rw [fetch_comments_eq_countP, fetch_comments_eq_countP, List.countP_cons]
      have hcc : commentCounted user_id n = false := by
        unfold commentCounted
        rw [hsys]
        simp
      rw [hcc]
      simp

/-- Witness for C6: an authored non-system note is retained (so the filter
is reachable), and a note with `system = true` is dropped by the filter and
contributes nothing to the comment count. -/
theorem claim_c6_witness :
    (⟨some 7, none, some "ok"⟩ : Note).author_id = some 7
    ∧ (⟨some 7, some true, some "ok"⟩ : Note) ∉ user_comments [⟨some 7, some true, some "ok"⟩] 7
    ∧ fetch_comments [⟨some 7, some true, some "ok"⟩] 7 = fetch_comments [] 7 :=
  ⟨((claim_c6 [⟨some 7, none, some "ok"⟩] 7 ⟨some 7, none, some "ok"⟩).1 (by decide)).1,
   ((claim_c6 [⟨some 7, some true, some "ok"⟩] 7 ⟨some 7, some true, some "ok"⟩).2 (by decide)).1,
   ((claim_c6 [] 7 ⟨some 7, some true, some "ok"⟩).2 (by decide)).2⟩

/-- Claim C10: the batch comment counter of `progress_view.py` counts a note
only when it is authored by the user, is not a system note, and has a
non-empty body after stripping whitespace; a note whose body is absent,
empty or whitespace-only contributes nothing even when authored by the user. -/
theorem claim_c10 (notes : List Note) (user_id : Int) (n : Note) :
    fetch_comments notes user_id = notes.countP (commentCounted user_id)
    ∧ (∀ note ∈ notes, commentCounted user_id note = true →
        note.author_id = some user_id ∧ note.system.getD false = false
          ∧ stripString (note.body.getD "") ≠ "")
    ∧ (stripString (n.body.getD "") = "" →
        fetch_comments (n :: notes) user_id = fetch_comments notes user_id) := by
  refine ⟨fetch_comments_eq_countP _ _, ?_, ?_⟩
  · intro note _ hcc
    unfold commentCounted at hcc
    simp only [Bool.and_eq_true, decide_eq_true_eq, Bool.not_eq_true',
      decide_eq_false_iff_not] at hcc
    exact ⟨hcc.1.1, hcc.1.2, hcc.2⟩
  · intro hbody
    rw [fetch_comments_eq_countP, fetch_comments_eq_countP, List.countP_cons]
    have hcc : commentCounted user_id n = false := by
      unfold commentCounted
      rw [hbody]
      simp
    rw [hcc]
    simp

/-- Witness for C10: a note authored by the user with a whitespace-only body
is not counted. -/
theorem claim_c10_witness :
    stripString ((⟨some 7, some false, some "   "⟩ : Note).body.getD "") = ""
    ∧ fetch_comments [⟨some 7, some false, some "   "⟩] 7 = fetch_comments [] 7 :=
  ⟨by decide, (claim_c10 [] 7 ⟨some 7, some false, some "   "⟩).2.2 (by decide)⟩

/-- Claim C7: the commit-collection deduplication returns a list with no two
commits sharing an id (every id occurs at most once), and it keeps exactly
the ids present in the accumulated input. -/
theorem claim_c7 (commits : List Commit) :
    ((dedupById commits).map Commit.id).Nodup
    ∧ ∀ i, i ∈ (dedupById commits).map Commit.id ↔ i ∈ commits.map Commit.id := by
  refine ⟨(dedupByIdGo_ids commits []).1, fun i => ?_⟩
  exact dedupByIdGo_mem_ids commits [] i (by simp)

/-- Claim C2: an event carrying a structured `author.id` equal to the target
user's id is accepted by the author-matching decision of the identity-scoped
fetches, regardless of its author name and email fields: membership in the
fetched list is preserved by the filter, and the matching predicate is
unchanged by any rewriting of the name/email fields. -/
theorem claim_c2 (mrs : List MergeRequest) (user_id : Int) (mr : MergeRequest) :
    (mr.author_id = some user_id →
      (mr ∈ fetch_merge_requests_by_author mrs user_id ↔ mr ∈ mrs))
    ∧ ∀ name email : String,
        mrAuthorMatch user_id { mr with author_name := name, author_email := email }
          = mrAuthorMatch user_id mr := by
  constructor
  · intro h
    unfold fetch_merge_requests_by_author
    rw [List.mem_filter]
    simp [mrAuthorMatch, h]
  · intro name email
    rfl

/-- Witness for C2: an MR whose `author.id` is the target id is retained even
though its name and email fields do not mention the user. -/
theorem claim_c2_witness :
    (⟨some 7, "Somebody Else", "other@example.org", "opened"⟩ : MergeRequest)
      ∈ fetch_merge_requests_by_author
          [⟨some 7, "Somebody Else", "other@example.org", "opened"⟩] 7 :=
  ((claim_c2 [⟨some 7, "Somebody Else", "other@example.org", "opened"⟩] 7
      ⟨some 7, "Somebody Else", "other@example.org", "opened"⟩).1 rfl).mpr
    (List.mem_cons_self _ _)

/-- Counterexample to C1 as stated: in the `progress_view.py` aggregation, a
user with one issue carrying one counted comment gets
`total_contributions = 1` (commits + MRs + issues), not the five-way sum `2`
that includes the comment counts. -/
theorem claim_c1_counterexample :
    (gather_user_data 7 [⟨[], [], [⟨"opened", [⟨some 7, some false, some "hi"⟩]⟩]⟩]).total_contributions
      ≠ (gather_user_data 7 [⟨[], [], [⟨"opened", [⟨some 7, some false, some "hi"⟩]⟩]⟩]).commits
        + (gather_user_data 7 [⟨[], [], [⟨"opened", [⟨some 7, some false, some "hi"⟩]⟩]⟩]).merge_requests
        + (gather_user_data 7 [⟨[], [], [⟨"opened", [⟨some 7, some false, some "hi"⟩]⟩]⟩]).issues
        + (gather_user_data 7 [⟨[], [], [⟨"opened", [⟨some 7, some false, some "hi"⟩]⟩]⟩]).mr_comments
        + (gather_user_data 7 [⟨[], [], [⟨"opened", [⟨some 7, some false, some "hi"⟩]⟩]⟩]).issue_comments := by
  decide

/-- Claim C1 as amended: in `calculate_contribution_stats`
(`detailed_view.py`) the total is the arithmetic sum of all five category
counts, but in the `gather_all_user_data` aggregation (`progress_view.py`)
`total_contributions` equals commits + merge requests + issues only, with
the two comment counts excluded. -/
theorem claim_c1_amended (user_id : Int) (projects : List ProjectData)
    (commits_by_project : List (List Commit)) (merge_requests issues : List MergeRequest)
    (mr_comments issue_comments : List Note) :
    (gather_user_data user_id projects).total_contributions
      = (gather_user_data user_id projects).commits
        + (gather_user_data user_id projects).merge_requests
        + (gather_user_data user_id projects).issues
    ∧ (calculate_contribution_stats commits_by_project merge_requests issues
        mr_comments issue_comments).total_contributions
      = (calculate_contribution_stats commits_by_project merge_requests issues
          mr_comments issue_comments).total_commits
        + (calculate_contribution_stats commits_by_project merge_requests issues
            mr_comments issue_comments).total_mrs
        + (calculate_contribution_stats commits_by_project merge_requests issues
            mr_comments issue_comments).total_issues
        + (calculate_contribution_stats commits_by_project merge_requests issues
            mr_comments issue_comments).total_mr_comments
        + (calculate_contribution_stats commits_by_project merge_requests issues
            mr_comments issue_comments).total_issue_comments :=
  ⟨rfl, rfl⟩

/-- Counterexample to C3 as stated: with tier 1 returning commit `c1`, the
tier-2 email fetch is still executed and its commit `c2` is unioned into
the result, so the result is not the tier-1 commits alone. -/
theorem claim_c3_counterexample :
    fetch_commits ⟨"Name", "user", some "a@b", none⟩
        [⟨"c1", "", "", "", ""⟩] (fun _ => [⟨"c2", "", "", "", ""⟩]) []
      = [⟨"c1", "", "", "", ""⟩, ⟨"c2", "", "", "", ""⟩]
    ∧ fetch_commits ⟨"Name", "user", some "a@b", none⟩
        [⟨"c1", "", "", "", ""⟩] (fun _ => [⟨"c2", "", "", "", ""⟩]) []
      ≠ [⟨"c1", "", "", "", ""⟩] := by
  decide

/-- Claim C3 as amended: tier 2 is executed unconditionally — every commit
returned by a tier-2 email fetch appears (by id) in the result even when
tier 1 returned commits; only tier 3 is conditional: when tiers 1–2
together returned at least one commit the result draws solely from tiers
1–2 (tier 3 is skipped), and when they returned zero the result is the
client-side-matched tier-3 commits, deduplicated by id. -/
theorem claim_c3_amended (info : UserInfo) (tier1 : List Commit)
    (tier2 : String → List Commit) (tier3 : List Commit) (e : String) (c : Commit) :
    (e ∈ userEmails info → c ∈ tier2 e →
      c.id ∈ (fetch_commits info tier1 tier2 tier3).map Commit.id)
    ∧ (tier1 ++ (userEmails info).flatMap tier2 ≠ [] →
      ∀ x ∈ fetch_commits info tier1 tier2 tier3,
        x ∈ tier1 ++ (userEmails info).flatMap tier2)
    ∧ (tier1 ++ (userEmails info).flatMap tier2 = [] →
      fetch_commits info tier1 tier2 tier3
        = dedupById (tier3.filter (commitMatches (lowerString info.name)
            (lowerString info.username) ((userEmails info).map lowerString)))) := by
  refine ⟨?_, ?_, ?_⟩
  · intro he hc
    have hmem : c ∈ tier1 ++ (userEmails info).flatMap tier2 :=
      List.mem_append.mpr (Or.inr (List.mem_flatMap.mpr ⟨e, he, hc⟩))
    have hne : tier1 ++ (userEmails info).flatMap tier2 ≠ [] :=
      List.ne_nil_of_mem hmem
    have hieq : (tier1 ++ (userEmails info).flatMap tier2).isEmpty = false := by
      cases h : tier1 ++ (userEmails info).flatMap tier2 with
      | nil => exact absurd h hne
      | cons a l => rfl
    unfold fetch_commits
    simp only [hieq, Bool.false_eq_true, if_false]
    unfold dedupById
    exact (dedupByIdGo_mem_ids _ [] c.id (by simp)).mpr (List.mem_map_of_mem _ hmem)
  · intro hne x hx
    have hieq : (tier1 ++ (userEmails info).flatMap tier2).isEmpty = false := by
      cases h : tier1 ++ (userEmails info).flatMap tier2 with
      | nil => exact absurd h hne
      | cons a l => rfl
    unfold fetch_commits at hx
    simp only [hieq, Bool.false_eq_true, if_false] at hx
    exact dedupByIdGo_subset _ [] x hx
  · intro hempty
    unfold fetch_commits
    simp [hempty]

/-- Witness for the amended C3: with tier 1 non-empty, the tier-2 commit
`c2` still appears in the result. -/
theorem claim_c3_amended_witness :
    "a@b" ∈ userEmails ⟨"Name", "user", some "a@b", none⟩
    ∧ (⟨"c2", "", "", "", ""⟩ : Commit) ∈ [(⟨"c2", "", "", "", ""⟩ : Commit)]
    ∧ "c2" ∈ (fetch_commits ⟨"Name", "user", some "a@b", none⟩
        [⟨"c1", "", "", "", ""⟩] (fun _ => [⟨"c2", "", "", "", ""⟩]) []).map Commit.id :=
  ⟨by decide, by decide,
    (claim_c3_amended ⟨"Name", "user", some "a@b", none⟩ [⟨"c1", "", "", "", ""⟩]
      (fun _ => [⟨"c2", "", "", "", ""⟩]) [] "a@b" ⟨"c2", "", "", "", ""⟩).1
      (by decide) (by decide)⟩

/-- Claim C8: a project id appearing in several discovery channels occurs
exactly once in the resolved list; in the `app.py` resolution the kept entry
is tagged `is_personal = true` exactly when the id comes from the owned
(personal) channel, so a project listed as both owned and contributed is
resolved once with the owned tag; the `detailed_view.py` dict-based
deduplication likewise keeps each id exactly once. -/
theorem claim_c8 (personal contributed : List RawProject) (pid : Int) :
    (pid ∈ (personal ++ contributed).map RawProject.id →
      ((resolveProjects personal contributed).map TaggedProject.id).count pid = 1)
    ∧ (pid ∈ personal.map RawProject.id →
      ∀ t ∈ resolveProjects personal contributed, t.id = pid → t.is_personal = true)
    ∧ (pid ∉ personal.map RawProject.id →
      ∀ t ∈ resolveProjects personal contributed, t.id = pid → t.is_personal = false)
    ∧ ((dedupLastById (personal ++ contributed)).map RawProject.id).Nodup
    ∧ (pid ∈ (personal ++ contributed).map RawProject.id →
      ((dedupLastById (personal ++ contributed)).map RawProject.id).count pid = 1) := by
  refine ⟨?_, ?_, ?_, ?_, ?_⟩
  · intro hmem
    unfold resolveProjects
    exact List.count_eq_one_of_mem (resolveProjectsGo_ids personal (personal ++ contributed) []).1
      ((resolveProjectsGo_mem_ids personal (personal ++ contributed) [] pid (by simp)).mpr hmem)
  · intro hpid t ht htid
    obtain ⟨seen', hchar, heq⟩ := resolveProjectsGo_append personal personal contributed []
    unfold resolveProjects at ht
    rw [heq] at ht
    rcases List.mem_append.mp ht with h | h
    · exact resolveProjectsGo_personal_tag personal personal [] (fun p hp => hp) t h
    · exfalso
      have hnot := (resolveProjectsGo_shape personal contributed seen' t h).1
      exact hnot (by rw [htid]; exact (hchar pid).mpr (Or.inr hpid))
  · intro hpid t ht htid
    obtain ⟨_, p, _, hpid', hper⟩ :=
      resolveProjectsGo_shape personal (personal ++ contributed) [] t ht
    have hnp : p ∉ personal := fun hmem =>
      hpid (List.mem_map.mpr ⟨p, hmem, hpid'.trans htid⟩)
    rw [hper, decide_eq_false hnp]
  · exact foldl_upsertById_nodup (personal ++ contributed) [] (by simp)
  · intro hmem
    unfold dedupLastById
    refine List.count_eq_one_of_mem (foldl_upsertById_nodup (personal ++ contributed) [] (by simp)) ?_
    rw [foldl_upsertById_mem_ids]
    exact Or.inr hmem

/-- Witness for C8: project id 42 listed once as owned and once as
contributed resolves to exactly one entry, tagged as personal (owned). -/
theorem claim_c8_witness :
    (42 : Int) ∈ ([⟨42, "grp/proj"⟩] ++ [⟨42, "grp/proj"⟩] : List RawProject).map RawProject.id
    ∧ ((resolveProjects [⟨42, "grp/proj"⟩] [⟨42, "grp/proj"⟩]).map TaggedProject.id).count 42 = 1
    ∧ ∀ t ∈ resolveProjects [⟨42, "grp/proj"⟩] [⟨42, "grp/proj"⟩],
        t.id = 42 → t.is_personal = true :=
  ⟨by decide,
    (claim_c8 [⟨42, "grp/proj"⟩] [⟨42, "grp/proj"⟩] 42).1 (by decide),
    (claim_c8 [⟨42, "grp/proj"⟩] [⟨42, "grp/proj"⟩] 42).2.1 (by decide)⟩

/-- Claim C4: the grading thresholds. With batch mean `m` and value `v`:
`No Data` when both are zero, `Above Average` when the mean is zero and the
value positive; for positive mean the grade is `Excellent` iff
`v/m ≥ 135%`, `Good` iff `90% ≤ v/m < 135%`, `Average` iff
`50% ≤ v/m < 90%`, and `Below Average` iff `v/m < 50%`; and the commit
batch `[5, 10, 15]` (mean 10) grades `Average`, `Good`, `Excellent`. -/
theorem claim_c4 (v m : ℚ) :
    (m = 0 → v = 0 → calculate_grade v m = "No Data")
    ∧ (m = 0 → 0 < v → calculate_grade v m = "Above Average")
    ∧ (0 < m →
        ((calculate_grade v m = "Excellent" ↔ 135 / 100 ≤ v / m)
        ∧ (calculate_grade v m = "Good" ↔ 90 / 100 ≤ v / m ∧ v / m < 135 / 100)
        ∧ (calculate_grade v m = "Average" ↔ 50 / 100 ≤ v / m ∧ v / m < 90 / 100)
        ∧ (calculate_grade v m = "Below Average" ↔ v / m < 50 / 100)))
    ∧ gradeBatch [5, 10, 15] = ["Average", "Good", "Excellent"] := by
  refine ⟨?_, ?_, ?_, by norm_num [gradeBatch, batchMean, calculate_grade]⟩
  · intro hm hv
    simp [calculate_grade, hm, hv]
  · intro hm hv
    simp [calculate_grade, hm, hv.ne.symm]
  · intro hm
    have hm' : m ≠ 0 := ne_of_gt hm
    unfold calculate_grade
    rw [if_neg hm']
    set a := v / m with ha
    by_cases h1 : a * 100 ≥ 135
    · rw [if_pos h1]
      refine ⟨iff_of_true rfl (by linarith), iff_of_false (by decide) ?_,
        iff_of_false (by decide) ?_, iff_of_false (by decide) ?_⟩
      · rintro ⟨-, h⟩
        linarith
      · rintro ⟨-, h⟩
        linarith
      · intro h
        linarith
    · have h1' : a * 100 < 135 := lt_of_not_ge h1
      by_cases h2 : a * 100 ≥ 90
      · rw [if_neg h1, if_pos h2]
        refine ⟨iff_of_false (by decide) ?_, iff_of_true rfl ⟨by linarith, by linarith⟩,
          iff_of_false (by decide) ?_, iff_of_false (by decide) ?_⟩
        · intro h
          linarith
        · rintro ⟨-, h⟩
          linarith
        · intro h
          linarith
      · have h2' : a * 100 < 90 := lt_of_not_ge h2
        by_cases h3 : a * 100 ≥ 50
        · rw [if_neg h1, if_neg h2, if_pos h3]
          refine ⟨iff_of_false (by decide) ?_, iff_of_false (by decide) ?_,
            iff_of_true rfl ⟨by linarith, by linarith⟩, iff_of_false (by decide) ?_⟩
          · intro h
            linarith
          · rintro ⟨h, -⟩
            linarith
          · intro h
            linarith
        · have h3' : a * 100 < 50 := lt_of_not_ge h3
          rw [if_neg h1, if_neg h2, if_neg h3]
          refine ⟨iff_of_false (by decide) ?_, iff_of_false (by decide) ?_,
            iff_of_false (by decide) ?_, iff_of_true rfl (by linarith)⟩
          · intro h
            linarith
          · rintro ⟨h, -⟩
            linarith
          · rintro ⟨h, -⟩
            linarith

/-- Witness for C4: against mean 10, the value 15 grades `Excellent`, and
against a zero mean a positive value grades `Above Average`. -/
theorem claim_c4_witness :
    (0 : ℚ) < 10
    ∧ calculate_grade 15 10 = "Excellent"
    ∧ calculate_grade 3 0 = "Above Average" :=
  ⟨by decide,
    ((claim_c4 15 10).2.2.1 (by decide)).1.mpr (by norm_num),
    (claim_c4 3 0).2.1 rfl (by decide)⟩

end GitTracker
